import Mathlib

/-!
Shallow embedding of the karkinos scraper (src/main.rs, src/types.rs) and
verification of its specification claims.

External engines the program links against (HTML parsing + CSS selection via
`scraper`, the `regex` crate, `f64` parsing, SHA-256, the network client and
the filesystem) are modelled as abstract function-valued environments; the
program's own control flow, data model and algorithms are translated directly
from the source.  Rust `panic!` and `Result`-errors are both modelled with
`Except String`.
-/

namespace Karkinos

/-- First-match association-list lookup, modelling `HashMap::get` on a map
represented as an entry list. -/
def alookup {α : Type} : List (String × α) → String → Option α
  | [], _ => none
  | (k', v) :: rest, k => if k' = k then some v else alookup rest k

/-- Does the character list start with the given pattern? Used to embed the
Rust standard library's substring search executably. -/
def charsStartsWith : List Char → List Char → Bool
  | _, [] => true
  | [], _ :: _ => false
  | c :: cs, p :: ps => c == p && charsStartsWith cs ps

/-- Left-to-right replacement of all non-overlapping occurrences of a
non-empty pattern, fuelled by the input length so that it is structurally
recursive (and hence kernel-evaluable). -/
def replaceCharsFuel : Nat → List Char → List Char → List Char → List Char
  | 0, s, _, _ => s
  | _ + 1, [], _, _ => []
  | fuel + 1, c :: cs, pat, repl =>
    if charsStartsWith (c :: cs) pat then
      repl ++ replaceCharsFuel fuel (List.drop (pat.length - 1) cs) pat repl
    else c :: replaceCharsFuel fuel cs pat repl

/-- `str::replace` from the Rust standard library: replace every
non-overlapping occurrence of `pat` by `repl`; an empty pattern matches at
every character boundary. -/
def rust_replace (s pat repl : String) : String :=
  match pat.data with
  | [] => ⟨repl.data ++ s.data.foldr (fun c acc => c :: (repl.data ++ acc)) []⟩
  | _ :: _ => ⟨replaceCharsFuel (s.data.length + 1) s.data pat.data repl.data⟩

/-- Substring containment on character lists. -/
def containsChars (pat : List Char) : List Char → Bool
  | [] => pat.isEmpty
  | c :: cs => charsStartsWith (c :: cs) pat || containsChars pat cs

/-- `str::contains` from the Rust standard library, for string needles. -/
def rust_contains (s sub : String) : Bool :=
  containsChars sub.data s.data

/-- `str::starts_with` from the Rust standard library. -/
def rust_starts_with (s p : String) : Bool :=
  charsStartsWith s.data p.data

/-- `str::trim` from the Rust standard library: strip whitespace from both
ends. -/
def rust_trim (s : String) : String :=
  ⟨((s.data.dropWhile Char.isWhitespace).reverse.dropWhile Char.isWhitespace).reverse⟩

/-- `str::to_lowercase` from the Rust standard library. -/
def rust_to_lowercase (s : String) : String :=
  ⟨s.data.map Char.toLower⟩

/-- `str::to_uppercase` from the Rust standard library. -/
def rust_to_uppercase (s : String) : String :=
  ⟨s.data.map Char.toUpper⟩

/-- Output value type, from `types.rs` (`ReturnedDataItem`): a tagged union of
text, 64-bit float, boolean, or a list of child result trees. -/
inductive ReturnedDataItem : Type where
  | StringItem (s : String)
  | NumberItem (n : Float)
  | BoolItem (b : Bool)
  | DataItems (items : List (List (String × ReturnedDataItem)))

/-- `ReturnedData` from `types.rs`: a map from field name to value, modelled
as an association list of entries. -/
abbrev ReturnedData := List (String × ReturnedDataItem)

/-- `acc.entry(name).or_insert(value)` from `populate_values`' reduce step:
insert the pair only when the name is not yet bound. -/
def rdInsert (m : ReturnedData) (k : String) (v : ReturnedDataItem) : ReturnedData :=
  match alookup m k with
  | some _ => m
  | none => (k, v) :: m

/-- The reduce operator of `populate_values` (main.rs lines 549-555): fold the
entries of `dt2` into `dt1`, never overwriting an existing name. -/
def rdCombine (dt1 dt2 : ReturnedData) : ReturnedData :=
  dt2.foldl (fun acc kv => rdInsert acc kv.1 kv.2) dt1

/-- `is_empty_result` from main.rs lines 198-215. -/
def is_empty_result (data : ReturnedData) : Bool :=
  if data.isEmpty then true
  else data.all fun kv =>
    match kv.2 with
    | .StringItem s => s.isEmpty
    | .DataItems items => items.isEmpty
    | .NumberItem _ => false
    | .BoolItem _ => false

/-- `ItemConfig` from `types.rs`: one named extraction rule; recursive through
the optional `data` sub-schema. -/
inductive ItemConfig : Type where
  | mk (selector : String) (attr : Option String)
      (data : Option (List (String × ItemConfig)))
      (trim : Bool) (nth : Nat) (default : Option String)
      (regex : Option String) (replace : Option (List String))
      (uppercase lowercase to_number to_boolean strip_html : Bool)

/-- `DataConfig` from `types.rs`: map from field name to rule. -/
abbrev DataConfig := List (String × ItemConfig)

def ItemConfig.selector : ItemConfig → String
  | .mk s _ _ _ _ _ _ _ _ _ _ _ _ => s

def ItemConfig.attr : ItemConfig → Option String
  | .mk _ a _ _ _ _ _ _ _ _ _ _ _ => a

def ItemConfig.data : ItemConfig → Option DataConfig
  | .mk _ _ d _ _ _ _ _ _ _ _ _ _ => d

def ItemConfig.trim : ItemConfig → Bool
  | .mk _ _ _ t _ _ _ _ _ _ _ _ _ => t

def ItemConfig.nth : ItemConfig → Nat
  | .mk _ _ _ _ n _ _ _ _ _ _ _ _ => n

def ItemConfig.default : ItemConfig → Option String
  | .mk _ _ _ _ _ d _ _ _ _ _ _ _ => d

def ItemConfig.regex : ItemConfig → Option String
  | .mk _ _ _ _ _ _ r _ _ _ _ _ _ => r

def ItemConfig.replace : ItemConfig → Option (List String)
  | .mk _ _ _ _ _ _ _ r _ _ _ _ _ => r

def ItemConfig.uppercase : ItemConfig → Bool
  | .mk _ _ _ _ _ _ _ _ u _ _ _ _ => u

def ItemConfig.lowercase : ItemConfig → Bool
  | .mk _ _ _ _ _ _ _ _ _ l _ _ _ => l

def ItemConfig.to_number : ItemConfig → Bool
  | .mk _ _ _ _ _ _ _ _ _ _ n _ _ => n

def ItemConfig.to_boolean : ItemConfig → Bool
  | .mk _ _ _ _ _ _ _ _ _ _ _ b _ => b

def ItemConfig.strip_html : ItemConfig → Bool
  | .mk _ _ _ _ _ _ _ _ _ _ _ _ s => s

/-- A matched HTML element, as the `scraper` crate exposes it to this program:
its outer serialization, its inner serialization, and its attributes. -/
structure Element where
  outerHtml : String
  innerHtml : String
  attrs : List (String × String)

/-- `ElementRef::value().attr(name)` from the `scraper` crate. -/
def Element.attr (e : Element) (a : String) : Option String :=
  alookup e.attrs a

/-- Abstract model of the external engines used by extraction: HTML
parse+select (both fragment and document mode), text-node stripping, the
regex crate, and `str::parse::<f64>`. -/
structure Env where
  select : String → String → List Element
  selectDoc : String → String → List Element
  selectorValid : String → Bool
  stripHtml : String → String
  regexValid : String → Bool
  regexFind : String → String → Option String
  parseNumber : String → Option Float

/-- `ItemConfig::get_item_selector` from types.rs lines 184-196: compile the
selector or panic (modelled as an error) on malformed CSS. -/
def get_item_selector (env : Env) (c : ItemConfig) : Except String String :=
  if env.selectorValid c.selector then .ok c.selector
  else .error ("invalid selector: " ++ c.selector)

/-- The regex-extraction step of `apply_transformations` (main.rs lines
460-471): if the pattern compiles and matches, the value becomes the whole
first match; otherwise the value is unchanged. -/
def regex_step (env : Env) (pattern : Option String) (value : String) : String :=
  match pattern with
  | none => value
  | some pat =>
    if env.regexValid pat then
      match env.regexFind pat value with
      | some m => m
      | none => value
    else value

/-- The find/replace step of `apply_transformations` (main.rs lines 473-478):
applies only when the pair has exactly two elements. -/
def replace_step (replace : Option (List String)) (value : String) : String :=
  match replace with
  | none => value
  | some l =>
    if h : l.length = 2 then
      rust_replace value (l.get ⟨0, by omega⟩) (l.get ⟨1, by omega⟩)
    else value

/-- `apply_transformations` from main.rs lines 448-488. -/
def apply_transformations (env : Env) (value0 : String) (config : ItemConfig) : String :=
  let value := if config.trim then rust_trim value0 else value0
  let value := if config.strip_html then env.stripHtml value else value
  let value := regex_step env config.regex value
  let value := replace_step config.replace value
  if config.uppercase then rust_to_uppercase value
  else if config.lowercase then rust_to_lowercase value
  else value

/-- The type-coercion step of `populate_values` (main.rs lines 531-543). -/
def coerce_value (env : Env) (config : ItemConfig) (value : String) : ReturnedDataItem :=
  if config.to_number then
    match env.parseNumber (rust_trim value) with
    | some n => .NumberItem n
    | none => .StringItem value
  else if config.to_boolean then
    .BoolItem (rust_trim (rust_to_lowercase value) == "true" ||
               rust_trim (rust_to_lowercase value) == "1" ||
               rust_trim (rust_to_lowercase value) == "yes" ||
               rust_trim (rust_to_lowercase value) == "on")
  else .StringItem value

/-- The raw-value computation for a scalar field (main.rs lines 515-526):
element at position `nth`, falling back to the default (or empty text), and
the attribute value (empty when absent) or the inner serialization. -/
def scalar_raw (config : ItemConfig) (selected : List Element) : String :=
  match selected[config.nth]? with
  | none => config.default.getD ""
  | some el =>
    match config.attr with
    | none => el.innerHtml
    | some a => (el.attr a).getD ""

mutual

/-- The per-field closure of `populate_values` (main.rs lines 495-547):
compile the selector (panicking on malformed CSS), select, then either
recurse per matched element (group field) or extract a scalar value. -/
def populate_field (env : Env) (html : String) (name : String) (c : ItemConfig) :
    Except String ReturnedData :=
  match get_item_selector env c with
  | .error e => .error e
  | .ok sel =>
    let selected := env.select html sel
    match h : c.data with
    | some inner =>
      match populate_list env (selected.map (fun el => el.outerHtml)) inner with
      | .error e => .error e
      | .ok inner_values => .ok [(name, .DataItems inner_values)]
    | none =>
      let value := scalar_raw c selected
      let value := apply_transformations env value c
      .ok [(name, coerce_value env c value)]
termination_by (3 * sizeOf c, 0)
decreasing_by
  simp_wf
  apply Prod.Lex.left
  cases c with
  | mk s a d t n df r rp u l tn tb sh =>
    simp [ItemConfig.data] at h
    subst h
    simp
    omega

/-- The per-element recursion of a group field (main.rs lines 504-510):
one child tree per matched element, in document order. -/
def populate_list (env : Env) (htmls : List String) (inner : DataConfig) :
    Except String (List ReturnedData) :=
  match htmls with
  | [] => .ok []
  | hd :: rest =>
    match populate_values env hd inner with
    | .error e => .error e
    | .ok t =>
      match populate_list env rest inner with
      | .error e => .error e
      | .ok ts => .ok (t :: ts)
termination_by (3 * sizeOf inner + 2, sizeOf htmls)
decreasing_by
  · simp_wf
    apply Prod.Lex.right
    simp
  · simp_wf
    apply Prod.Lex.right
    simp

/-- The field iteration of `populate_values`: one singleton mapping per
field; a panic in any field aborts the whole extraction. -/
def populate_fields (env : Env) (html : String) (config : DataConfig) :
    Except String (List ReturnedData) :=
  match config with
  | [] => .ok []
  | (name, c) :: rest =>
    match populate_field env html name c with
    | .error e => .error e
    | .ok s =>
      match populate_fields env html rest with
      | .error e => .error e
      | .ok ss => .ok (s :: ss)
termination_by (3 * sizeOf config + 1, 0)
decreasing_by
  · simp_wf
    apply Prod.Lex.left
    omega
  · simp_wf
    apply Prod.Lex.left
    omega

/-- `populate_values` from main.rs lines 490-556: map every field to its
singleton mapping, then reduce with first-writer-wins insertion. -/
def populate_values (env : Env) (html : String) (config : DataConfig) :
    Except String ReturnedData :=
  match populate_fields env html config with
  | .error e => .error e
  | .ok singles => .ok (singles.foldl rdCombine [])
termination_by (3 * sizeOf config + 2, 0)
decreasing_by
  simp_wf
  apply Prod.Lex.left
  omega

end

/-- `PaginationConfig` from types.rs lines 84-110. -/
structure PaginationConfig where
  next_selector : Option String
  page_pattern : Option String
  start_page : Nat
  max_pages : Nat
  end_page : Option Nat
  stop_on_empty : Bool

/-- `ScrapeRootConfig` from types.rs lines 38-82. -/
structure ScrapeRootConfig where
  url : Option String
  urls : Option (List String)
  headers : Option (List (String × String))
  timeout : Nat
  retries : Nat
  delay : Nat
  proxy : Option String
  cache_dir : Option String
  use_cache : Bool
  pagination : Option PaginationConfig

/-- `ScrapeRootConfig::get_urls` from types.rs lines 125-135. -/
def ScrapeRootConfig.get_urls (c : ScrapeRootConfig) : List String :=
  match c.urls with
  | some urls => urls
  | none =>
    match c.url with
    | some url => [url]
    | none => []

/-- `ScrapeRoot` from types.rs lines 29-36. -/
structure ScrapeRoot where
  config : ScrapeRootConfig
  data : DataConfig

/-- One network-send outcome, as `reqwest` exposes it to `fetch_with_config`:
a transport-level failure, or a response carrying a status code (never
inspected by this program) and a body-decoding result. -/
inductive SendOutcome where
  | failure (e : String)
  | success (status : Nat) (text : Except String String)

/-- Abstract model of the external I/O world of the fetch orchestrator:
the network (outcome of the n-th attempt, 1-based, per URL), proxy/client
construction, SHA-256, and the cache filesystem. -/
structure FetchEnv where
  send : String → Nat → SendOutcome
  proxy_all : String → Except String Unit
  client_build : Except String Unit
  sha256_hex : String → String
  file_exists : String → Bool
  read_file : String → Except String String
  create_dir_all : String → Except String Unit
  write_file : String → String → Except String Unit

/-- Observable outcome of one `fetch_with_config` call: the returned value,
how many request attempts were made, how many 1-second retry sleeps were
performed, and which cache files were written. -/
structure FetchOutcome where
  result : Except String String
  attempts : Nat
  sleeps : Nat
  writes : List (String × String)

/-- `get_cache_path` from main.rs lines 324-329: cache-dir path joined with
the hex SHA-256 digest of the URL plus the `.html` extension. -/
def get_cache_path (env : FetchEnv) (url : String) (cache_dir : String) : String :=
  cache_dir ++ "/" ++ env.sha256_hex url ++ ".html"

/-- The retry loop of `fetch_with_config` (main.rs lines 357-403): send,
and on transport failure sleep 1 second and retry until `retries + 1` total
attempts are exhausted; on success decode the body (propagating a decode
failure immediately) and persist it when a cache directory is configured. -/
def fetch_attempt_loop (env : FetchEnv) (url : String) (config : ScrapeRootConfig)
    (max_attempts : Nat) (attempts : Nat) (sleeps : Nat) : FetchOutcome :=
  let a := attempts + 1
  match env.send url a with
  | .success _ text =>
    match text with
    | .error e => ⟨.error e, a, sleeps, []⟩
    | .ok html =>
      match config.cache_dir with
      | some cache_dir =>
        match env.create_dir_all cache_dir with
        | .error e => ⟨.error e, a, sleeps, []⟩
        | .ok _ =>
          let cache_path := get_cache_path env url cache_dir
          match env.write_file cache_path html with
          | .error e => ⟨.error e, a, sleeps, []⟩
          | .ok _ => ⟨.ok html, a, sleeps, [(cache_path, html)]⟩
      | none => ⟨.ok html, a, sleeps, []⟩
  | .failure e =>
    if a ≥ max_attempts then ⟨.error e, a, sleeps, []⟩
    else fetch_attempt_loop env url config max_attempts a (sleeps + 1)
termination_by max_attempts - attempts
decreasing_by omega

/-- The network part of `fetch_with_config` (main.rs lines 346-403): build
the client (optional proxy), then run the retry loop. -/
def fetch_network (env : FetchEnv) (url : String) (config : ScrapeRootConfig) : FetchOutcome :=
  let proxy_result : Except String Unit :=
    match config.proxy with
    | some proxy_url => env.proxy_all proxy_url
    | none => .ok ()
  match proxy_result with
  | .error e => ⟨.error e, 0, 0, []⟩
  | .ok _ =>
    match env.client_build with
    | .error e => ⟨.error e, 0, 0, []⟩
    | .ok _ => fetch_attempt_loop env url config (config.retries + 1) 0 0

/-- `fetch_with_config` from main.rs lines 331-404: serve from the cache when
enabled, configured and present; otherwise fetch over the network. -/
def fetch_with_config (env : FetchEnv) (url : String) (config : ScrapeRootConfig) :
    FetchOutcome :=
  if config.use_cache then
    match config.cache_dir with
    | some cache_dir =>
      let cache_path := get_cache_path env url cache_dir
      if env.file_exists cache_path then
        ⟨env.read_file cache_path, 0, 0, []⟩
      else fetch_network env url config
    | none => fetch_network env url config
  else fetch_network env url config

/-- `pattern.contains("{page}")` from main.rs line 71. -/
def contains_page (s : String) : Bool :=
  rust_contains s "{page}" 

/-- The per-page URL construction of the pattern strategy (main.rs lines
70-86): substitute `{page}`, append a placeholder-free pattern to the base
URL, and prepend the base URL when the result does not start with `http`. -/
def pattern_page_url (base_url : String) (pattern : String) (page_num : Nat) : String :=
  let url :=
    if contains_page pattern then rust_replace pattern "{page}" (toString page_num)
    else base_url ++ rust_replace pattern "{page}" (toString page_num)
  if rust_starts_with url "http" then url else base_url ++ url

/-- The page loop of the pattern strategy (main.rs lines 70-103), including
the `stopOnEmpty` eager fetch-and-extract check for every page after the
first (a fetch failure there is ignored and generation continues). -/
def pattern_loop (env : Env) (fenv : FetchEnv) (base_url pattern : String)
    (pagination : PaginationConfig) (config : ScrapeRootConfig)
    (data_config : DataConfig) (pages : List Nat) (start : Nat)
    (urls : List String) : Except String (List String) :=
  match pages with
  | [] => .ok urls
  | page_num :: rest =>
    let full_url := pattern_page_url base_url pattern page_num
    let urls := urls ++ [full_url]
    if pagination.stop_on_empty && decide (page_num > start) then
      match (fetch_with_config fenv full_url config).result with
      | .ok html =>
        match populate_values env html data_config with
        | .error e => .error e
        | .ok data =>
          if is_empty_result data then .ok urls.dropLast
          else pattern_loop env fenv base_url pattern pagination config data_config rest start urls
      | .error _ =>
        pattern_loop env fenv base_url pattern pagination config data_config rest start urls
    else pattern_loop env fenv base_url pattern pagination config data_config rest start urls

/-- The href resolution of the next-link strategy (main.rs lines 149-167):
absolute hrefs pass through, root-relative hrefs join scheme+host of the
current URL, and other hrefs are relative to its last path segment. -/
def resolve_href (current_url next_href : String) : String :=
  if rust_starts_with next_href "http" then next_href
  else if rust_starts_with next_href "/" then
    let base := String.intercalate "/" ((current_url.splitOn "/").take 3)
    base ++ next_href
  else
    let parts := current_url.splitOn "/"
    let base := if parts.length ≤ 1 then current_url
                else String.intercalate "/" parts.dropLast
    base ++ "/" ++ next_href

/-- The page loop of the next-link strategy (main.rs lines 128-188): fetch
the current page (a fetch error is fatal here), optionally stop on empty,
compile the next-selector (fatal when malformed), and follow the first
matched element's `href` until none is found or the bound is reached. -/
def next_link_loop (env : Env) (fenv : FetchEnv) (next_selector : String)
    (pagination : PaginationConfig) (config : ScrapeRootConfig)
    (data_config : DataConfig) (max_pages : Nat) (current_url : String)
    (page_count : Nat) (urls : List String) : Except String (List String) :=
  if page_count < max_pages then
    match (fetch_with_config fenv current_url config).result with
    | .error e => .error e
    | .ok html =>
      let emptyStop : Except String Bool :=
        if pagination.stop_on_empty then
          match populate_values env html data_config with
          | .error e => .error e
          | .ok data => .ok (is_empty_result data)
        else .ok false
      match emptyStop with
      | .error e => .error e
      | .ok true => .ok urls
      | .ok false =>
        if env.selectorValid next_selector then
          match (env.selectDoc html next_selector).head? with
          | some next_element =>
            match next_element.attr "href" with
            | some next_href =>
              let new_url := resolve_href current_url next_href
              next_link_loop env fenv next_selector pagination config data_config
                max_pages new_url (page_count + 1) (urls ++ [new_url])
            | none => .ok urls
          | none => .ok urls
        else .error ("Invalid next_selector: " ++ next_selector)
  else .ok urls
termination_by max_pages - page_count
decreasing_by omega

/-- `generate_paginated_urls` from main.rs lines 37-196: the pattern strategy
when `pagePattern` is present, else the next-link strategy when
`nextSelector` is present, else no URLs at all. -/
def generate_paginated_urls (env : Env) (fenv : FetchEnv) (base_url : String)
    (pagination : PaginationConfig) (config : ScrapeRootConfig)
    (data_config : DataConfig) : Except String (List String) :=
  match pagination.page_pattern with
  | some pattern =>
    let start := pagination.start_page
    let endPage :=
      match pagination.end_page with
      | some end_page => end_page
      | none =>
        if pagination.max_pages > 0 then start + pagination.max_pages - 1
        else start + 9
    pattern_loop env fenv base_url pattern pagination config data_config
      (List.range' start (endPage + 1 - start)) start []
  | none =>
    match pagination.next_selector with
    | some next_selector =>
      let max_pages := if pagination.max_pages > 0 then pagination.max_pages else 1000
      next_link_loop env fenv next_selector pagination config data_config
        max_pages base_url 1 [base_url]
    | none => .ok []

/-- The URL-list resolution of `main` (main.rs lines 244-261): pagination
expands the URL list only when exactly one URL is configured. -/
def resolve_urls (env : Env) (fenv : FetchEnv) (root : ScrapeRoot) :
    Except String (List String) :=
  let urls := root.config.get_urls
  match root.config.pagination with
  | some pagination =>
    if h : urls.length = 1 then
      generate_paginated_urls env fenv (urls.get ⟨0, by omega⟩) pagination
        root.config root.data
    else .ok urls
  | none => .ok urls

/-- The per-URL fetch-and-extract pipeline of `main` (main.rs lines 264-288):
fetch each URL in order and extract, any failure aborting the run. -/
def scrape_results (env : Env) (fenv : FetchEnv) (root : ScrapeRoot) :
    List String → Except String (List ReturnedData)
  | [] => .ok []
  | url :: rest =>
    match (fetch_with_config fenv url root.config).result with
    | .error e => .error e
    | .ok html =>
      match populate_values env html root.data with
      | .error e => .error e
      | .ok result =>
        match scrape_results env fenv root rest with
        | .error e => .error e
        | .ok results => .ok (result :: results)

/-- The whole run of `main` after config loading (main.rs lines 244-288):
resolve the URL list, then fetch and extract every URL in order. -/
def run_scrape (env : Env) (fenv : FetchEnv) (root : ScrapeRoot) :
    Except String (List ReturnedData) :=
  match resolve_urls env fenv root with
  | .error e => .error e
  | .ok urls => scrape_results env fenv root urls

/-- Key distinctness of one mapping level (a Rust `HashMap` never binds a
name twice). -/
def keysNodup {α : Type} : List (String × α) → Bool
  | [] => true
  | (k, _) :: rest => rest.all (fun kv => kv.1 != k) && keysNodup rest

mutual

/-- Recursive key distinctness of a field rule's nested schema. -/
def fieldNodup (c : ItemConfig) : Bool :=
  match h : c.data with
  | some inner => treeNodup inner
  | none => true
termination_by (3 * sizeOf c, 0)
decreasing_by
  simp_wf
  apply Prod.Lex.left
  cases c with
  | mk s a d t n df r rp u l tn tb sh =>
    simp [ItemConfig.data] at h
    subst h
    simp
    omega

/-- Recursive key distinctness of every field of a schema level. -/
def fieldsNodup : DataConfig → Bool
  | [] => true
  | (_, c) :: rest => fieldNodup c && fieldsNodup rest
termination_by config => (3 * sizeOf config + 1, 0)
decreasing_by
  · simp_wf
    apply Prod.Lex.left
    omega
  · simp_wf
    apply Prod.Lex.left
    omega

/-- A schema with distinct field names at every nesting level, as every
schema deserialized from a `HashMap`-backed config is. -/
def treeNodup (config : DataConfig) : Bool :=
  keysNodup config && fieldsNodup config
termination_by (3 * sizeOf config + 2, 0)
decreasing_by
  simp_wf
  apply Prod.Lex.left
  omega

end

mutual

/-- Shape agreement of one field's value with its rule: a group field maps
to a list of child trees each mirroring the nested schema; a scalar field
never maps to a list value. -/
def mirrorsField (c : ItemConfig) (v : ReturnedDataItem) : Bool :=
  match v with
  | .DataItems items =>
    match h : c.data with
    | some inner => mirrorsAll inner items
    | none => false
  | .StringItem _ => c.data.isNone
  | .NumberItem _ => c.data.isNone
  | .BoolItem _ => c.data.isNone
termination_by (3 * sizeOf c, 0)
decreasing_by
  simp_wf
  apply Prod.Lex.left
  cases c with
  | mk s a d t n df r rp u l tn tb sh =>
    simp [ItemConfig.data] at h
    subst h
    simp
    omega

/-- Every child tree of a group value mirrors the nested schema. -/
def mirrorsAll (inner : DataConfig) : List ReturnedData → Bool
  | [] => true
  | t :: ts => mirrorsTree inner t && mirrorsAll inner ts
termination_by ts => (3 * sizeOf inner + 2, sizeOf ts)
decreasing_by
  · simp_wf
    apply Prod.Lex.right
    simp
  · simp_wf
    apply Prod.Lex.right
    simp

/-- Every schema field is bound in the tree with a shape-agreeing value. -/
def mirrorsFields : DataConfig → ReturnedData → Bool
  | [], _ => true
  | (name, c) :: rest, t =>
    (match alookup t name with
     | some v => mirrorsField c v
     | none => false) && mirrorsFields rest t
termination_by config _ => (3 * sizeOf config + 1, 0)
decreasing_by
  · simp_wf
    apply Prod.Lex.left
    omega
  · simp_wf
    apply Prod.Lex.left
    omega

/-- A result tree mirrors a schema: its field-name set equals the schema's
names and every field's value agrees in shape, recursively. -/
def mirrorsTree (config : DataConfig) (t : ReturnedData) : Bool :=
  mirrorsFields config t && t.all fun kv => (alookup config kv.1).isSome
termination_by (3 * sizeOf config + 2, 0)
decreasing_by
  simp_wf
  apply Prod.Lex.left
  omega

end

/-- The spec's emptiness notion, stated from the claim's words: a text value
is empty exactly when it is the empty string, a list value exactly when it
has no elements, and a present numeric or boolean value is never empty. -/
def specEmptyValue : ReturnedDataItem → Bool
  | .StringItem s => s == ""
  | .DataItems items => items.isEmpty
  | .NumberItem _ => false
  | .BoolItem _ => false

/-- A concrete environment for witnesses: no element ever matches, every
selector compiles, no regex compiles, no number parses. -/
def trivEnv : Env where
  select := fun _ _ => []
  selectDoc := fun _ _ => []
  selectorValid := fun _ => true
  stripHtml := id
  regexValid := fun _ => false
  regexFind := fun _ _ => none
  parseNumber := fun _ => none

/-- A concrete environment whose selector compiler rejects everything. -/
def noSelEnv : Env :=
  { trivEnv with selectorValid := fun _ => false }

/-- A concrete scalar rule for witnesses: selector `h1`, default `D`, a regex
set, number coercion on. -/
def scalarNumCfg : ItemConfig :=
  .mk "h1" none none true 0 (some "D") (some "re") none false false true false false

/-- A concrete I/O world for witnesses: network always fails, filesystem
writes succeed, no cache file exists. -/
def trivFetchEnv : FetchEnv where
  send := fun _ _ => .failure "offline"
  proxy_all := fun _ => .ok ()
  client_build := .ok ()
  sha256_hex := fun _ => "HASH"
  file_exists := fun _ => false
  read_file := fun _ => .error "no file"
  create_dir_all := fun _ => .ok ()
  write_file := fun _ _ => .ok ()

/-- An I/O world whose first two attempts fail at the transport level and
whose third attempt returns an HTTP 500 response with body `hi`. -/
def retryFetchEnv : FetchEnv :=
  { trivFetchEnv with
    send := fun _ i => if i ≤ 2 then .failure "boom" else .success 500 (.ok "hi") }

/-- An I/O world whose every attempt succeeds with body `page`. -/
def okFetchEnv : FetchEnv :=
  { trivFetchEnv with send := fun _ _ => .success 200 (.ok "page") }

/-- A minimal fetch configuration: single URL, no retries, no cache. -/
def cfg0 : ScrapeRootConfig :=
  ⟨some "https://x.test/", none, none, 30, 0, 0, none, none, false, none⟩

/-- A fetch configuration with `retries = 2` and no cache. -/
def cfgRetry : ScrapeRootConfig :=
  ⟨some "https://x.test/", none, none, 30, 2, 0, none, none, false, none⟩

/-- A fetch configuration with caching DISABLED (`use_cache = false`) but a
cache directory configured. -/
def cfgCacheOff : ScrapeRootConfig :=
  ⟨some "https://x.test/", none, none, 30, 0, 0, none, some "cache", false, none⟩

/-- A fetch configuration with caching ENABLED (`use_cache = true`) and a
cache directory configured. -/
def cfgCacheOn : ScrapeRootConfig :=
  ⟨some "https://x.test/", none, none, 30, 0, 0, none, some "cache", true, none⟩

/-- A pagination object with neither `pagePattern` nor `nextSelector`. -/
def pagEmpty : PaginationConfig := ⟨none, none, 1, 0, none, false⟩

/-- A run config with two explicit URLs and a (useless) pagination object. -/
def rootTwo : ScrapeRoot :=
  ⟨⟨none, some ["https://a.test/", "https://b.test/"], none, 30, 0, 0, none, none,
    false, some pagEmpty⟩, []⟩

/-- A run config with one URL and a strategy-less pagination object. -/
def rootOne : ScrapeRoot :=
  ⟨⟨some "https://a.test/", none, none, 30, 0, 0, none, none, false, some pagEmpty⟩, []⟩

/-- First successful lookup across a list of partial trees: the value the
first-writer-wins reduce gives a name. -/
def firstLookup (singles : List ReturnedData) (k : String) : Option ReturnedDataItem :=
  match singles with
  | [] => none
  | s :: rest =>
    match alookup s k with
    | some v => some v
    | none => firstLookup rest k

/-- A concrete one-scalar-field schema for witnesses. -/
def simpleCfg : DataConfig :=
  [("title", .mk "h1" none none true 0 none none none false false false false false)]

/- ------------------------------------------------------------------ -/
/- Helper lemmas                                                       -/
/- ------------------------------------------------------------------ -/

theorem alookup_cons {α : Type} (k' k : String) (v : α) (m : List (String × α)) :
    alookup ((k', v) :: m) k = if k' = k then some v else alookup m k := rfl

theorem alookup_rdCombine (b a : ReturnedData) (k : String) :
    alookup (rdCombine a b) k =
      match alookup a k with
      | some v => some v
      | none => alookup b k := by
  induction b generalizing a with
  | nil =>
    cases h : alookup a k <;> simp [rdCombine, alookup, h]
  | cons hd tl ih =>
    rcases hd with ⟨kb, vb⟩
    have step : rdCombine a ((kb, vb) :: tl) = rdCombine (rdInsert a kb vb) tl := rfl
    rw [step, ih]
    unfold rdInsert
    by_cases hk : kb = k
    · subst hk
      cases hb : alookup a kb with
      | some w => simp [hb, alookup_cons]
      | none => simp [hb, alookup_cons]
    · cases hb : alookup a kb with
      | some w => simp [hb, alookup_cons, hk]
      | none => simp [hb, alookup_cons, hk]

theorem populate_fields_error_of_mem (config : DataConfig) (env : Env)
    (html name : String) (c : ItemConfig) (e : String)
    (hmem : (name, c) ∈ config)
    (herr : populate_field env html name c = .error e) :
    ∀ l, populate_fields env html config ≠ .ok l := by
  induction config with
  | nil => simp at hmem
  | cons hd rest ih =>
    intro l hok
    rcases hd with ⟨n0, c0⟩
    rcases List.mem_cons.mp hmem with heq | hmem'
    · cases heq
      simp [populate_fields, herr] at hok
    · cases hf : populate_field env html n0 c0 with
      | error e0 => simp [populate_fields, hf] at hok
      | ok s =>
        cases hr : populate_fields env html rest with
        | error e0 => simp [populate_fields, hf, hr] at hok
        | ok l0 => exact absurd hr (ih hmem' l0)

/- ------------------------------------------------------------------ -/
/- Claim theorems                                                      -/
/- ------------------------------------------------------------------ -/

/-- C3: a field whose selector string is malformed CSS makes selector
compilation fail deterministically; the failure is propagated as a fatal
error aborting the extraction at the point of occurrence, and the field is
never resolved to a fallback value. -/
theorem invalid_selector_fatal (env : Env) (html name : String) (c : ItemConfig)
    (hval : env.selectorValid c.selector = false) :
    populate_field env html name c = .error ("invalid selector: " ++ c.selector) ∧
    ∀ config : DataConfig, (name, c) ∈ config →
      ∀ t, populate_values env html config ≠ .ok t := by
  have hfield : populate_field env html name c =
      .error ("invalid selector: " ++ c.selector) := by
    rw [populate_field]
    simp [get_item_selector, hval]
  refine ⟨hfield, ?_⟩
  intro config hmem t hok
  cases hf : populate_fields env html config with
  | error e => simp [populate_values, hf] at hok
  | ok singles =>
    exact populate_fields_error_of_mem config env html name c _ hmem hfield singles hf

/-- C3 witness: at a concrete rejecting environment and rule, extraction of
the field is an error, not a fallback value. -/
theorem invalid_selector_fatal_witness :
    populate_field noSelEnv "x" "f" scalarNumCfg =
      .error ("invalid selector: " ++ scalarNumCfg.selector) :=
  (invalid_selector_fatal noSelEnv "x" "f" scalarNumCfg rfl).1

/-- C4: the emptiness check judges a tree empty exactly when it has no
fields or every field's value is empty by type (text empty iff the empty
string, list empty iff no elements, any numeric or boolean value counts as
content); with the claim's concrete examples. -/
theorem emptiness_check_spec :
    (∀ t : ReturnedData,
        is_empty_result t = true ↔ (t = [] ∨ ∀ kv ∈ t, specEmptyValue kv.2 = true)) ∧
    is_empty_result [("a", .StringItem "")] = true ∧
    is_empty_result [("a", .DataItems [])] = true ∧
    is_empty_result [("a", .NumberItem 0.0)] = false ∧
    is_empty_result [("a", .BoolItem false)] = false ∧
    is_empty_result [("a", .DataItems [[("b", .StringItem "T")]])] = false := by
  refine ⟨?_, rfl, rfl, rfl, rfl, rfl⟩
  intro t
  cases t with
  | nil => simp [is_empty_result]
  | cons hd tl =>
    unfold is_empty_result
    simp only [List.isEmpty_cons, Bool.false_eq_true, if_false, List.all_eq_true,
      List.cons_ne_nil, false_or]
    constructor
    · intro h kv hmem
      have hk := h kv hmem
      rcases kv with ⟨k, v⟩
      cases v <;> simp_all [specEmptyValue, String.isEmpty_iff]
    · intro h kv hmem
      have hk := h kv hmem
      rcases kv with ⟨k, v⟩
      cases v <;> simp_all [specEmptyValue, String.isEmpty_iff]

/-- C4 witness: the characterization applied at a concrete tree. -/
theorem emptiness_check_spec_witness :
    is_empty_result [("a", ReturnedDataItem.StringItem "")] = true :=
  (emptiness_check_spec.1 [("a", .StringItem "")]).mpr
    (Or.inr (by intro kv hmem; simp at hmem; simp [hmem, specEmptyValue]))

/-- C7: the reduce step's insertion never overwrites a name already bound
(first writer wins), is associative, and is commutative up to the
tie-break (exactly, whenever the two trees bind disjoint name sets). -/
theorem reduce_first_writer_wins :
    (∀ t1 t2 : ReturnedData, ∀ k, (alookup t1 k).isSome →
        alookup (rdCombine t1 t2) k = alookup t1 k) ∧
    (∀ t1 t2 t3 : ReturnedData, ∀ k,
        alookup (rdCombine (rdCombine t1 t2) t3) k =
          alookup (rdCombine t1 (rdCombine t2 t3)) k) ∧
    (∀ t1 t2 : ReturnedData,
        (∀ k', (alookup t1 k').isSome → alookup t2 k' = none) →
        ∀ k, alookup (rdCombine t1 t2) k = alookup (rdCombine t2 t1) k) := by
  refine ⟨?_, ?_, ?_⟩
  · intro t1 t2 k h
    rw [alookup_rdCombine]
    cases ha : alookup t1 k with
    | some v => rfl
    | none => rw [ha] at h; simp at h
  · intro t1 t2 t3 k
    rw [alookup_rdCombine, alookup_rdCombine, alookup_rdCombine, alookup_rdCombine]
    cases alookup t1 k <;> cases alookup t2 k <;> rfl
  · intro t1 t2 hdisj k
    rw [alookup_rdCombine, alookup_rdCombine]
    cases h1 : alookup t1 k with
    | none => cases h2 : alookup t2 k <;> simp
    | some v =>
      have h2 := hdisj k (by simp [h1])
      simp [h2]

/-- C7 witness: a name bound in the left tree keeps its left value. -/
theorem reduce_first_writer_wins_witness :
    alookup (rdCombine [("a", .StringItem "old")] [("a", .StringItem "new")]) "a" =
      alookup [("a", ReturnedDataItem.StringItem "old")] "a" :=
  reduce_first_writer_wins.1 [("a", .StringItem "old")] [("a", .StringItem "new")] "a"
    (by simp [alookup])

/-- C8: scalar extraction anomalies degrade to fallback values and never
fail the run: a valid-selector scalar field always yields a value (built by
the raw-value/transform/coerce pipeline); a missing match at position `nth`
falls back to the default or empty text; a missing named attribute yields
the empty string; an invalid or non-matching regex leaves the value
unchanged; an unparseable number coercion emits the string unchanged. -/
theorem scalar_extraction_degrades (env : Env) (html : String) (c : ItemConfig)
    (hdata : c.data = none) (hval : env.selectorValid c.selector = true) :
    (∀ name, populate_field env html name c =
        .ok [(name, coerce_value env c
          (apply_transformations env (scalar_raw c (env.select html c.selector)) c))]) ∧
    ((env.select html c.selector)[c.nth]? = none →
        scalar_raw c (env.select html c.selector) = c.default.getD "") ∧
    (∀ el a, (env.select html c.selector)[c.nth]? = some el → c.attr = some a →
        el.attr a = none → scalar_raw c (env.select html c.selector) = "") ∧
    (∀ pat v, env.regexValid pat = false ∨ env.regexFind pat v = none →
        regex_step env (some pat) v = v) ∧
    (∀ v, c.to_number = true → env.parseNumber (rust_trim v) = none →
        coerce_value env c v = .StringItem v) := by
  refine ⟨?_, ?_, ?_, ?_, ?_⟩
  · intro name
    rw [populate_field]
    simp only [get_item_selector, hval, if_true]
    split
    · rename_i inner h'
      rw [hdata] at h'
      simp at h'
    · rfl
  · intro hnone
    simp [scalar_raw, hnone]
  · intro el a hel hattr hab
    simp [scalar_raw, hel, hattr, hab]
  · intro pat v h
    rcases h with h | h
    · simp [regex_step, h]
    · simp [regex_step, h]
  · intro v hnum hparse
    simp [coerce_value, hnum, hparse]

/-- C8 witness: with no matching element, the raw value is the configured
default. -/
theorem scalar_extraction_degrades_witness :
    scalar_raw scalarNumCfg (trivEnv.select "x" scalarNumCfg.selector) = "D" := by
  have h := (scalar_extraction_degrades trivEnv "x" scalarNumCfg rfl rfl).2.1
  simpa using h rfl

theorem pattern_loop_no_stop (env : Env) (fenv : FetchEnv) (base pat : String)
    (p : PaginationConfig) (config : ScrapeRootConfig) (data : DataConfig)
    (hstop : p.stop_on_empty = false) :
    ∀ (pages : List Nat) (start : Nat) (urls : List String),
      pattern_loop env fenv base pat p config data pages start urls =
        .ok (urls ++ pages.map (pattern_page_url base pat)) := by
  intro pages
  induction pages with
  | nil => intro start urls; simp [pattern_loop]
  | cons pg rest ih =>
    intro start urls
    rw [pattern_loop]
    simp only [hstop, Bool.false_and, Bool.false_eq_true, if_false]
    rw [ih]
    simp

/-- C5: with `stopOnEmpty` disabled, the pattern strategy generates one URL
per page number from `startPage` up to `endPage` when given, else up to
`startPage + maxPages - 1` when `maxPages > 0`, else up to `startPage + 9`,
each built by `pattern_page_url` ({page}-substitution, suffix-append, base
prepend); the claim's concrete scenario yields exactly its three URLs. -/
theorem pattern_pagination_urls (env : Env) (fenv : FetchEnv) (base : String)
    (p : PaginationConfig) (config : ScrapeRootConfig) (data : DataConfig)
    (pat : String) (hstop : p.stop_on_empty = false)
    (hpat : p.page_pattern = some pat) :
    (∀ ep, p.end_page = some ep →
        generate_paginated_urls env fenv base p config data =
          .ok ((List.range' p.start_page (ep + 1 - p.start_page)).map
            (pattern_page_url base pat))) ∧
    (p.end_page = none → 0 < p.max_pages →
        generate_paginated_urls env fenv base p config data =
          .ok ((List.range' p.start_page p.max_pages).map
            (pattern_page_url base pat))) ∧
    (p.end_page = none → p.max_pages = 0 →
        generate_paginated_urls env fenv base p config data =
          .ok ((List.range' p.start_page 10).map (pattern_page_url base pat))) ∧
    (∀ (e2 : Env) (f2 : FetchEnv) (c2 : ScrapeRootConfig) (d2 : DataConfig),
        generate_paginated_urls e2 f2 "https://x.test/"
            ⟨none, some "?page={page}", 1, 0, some 3, false⟩ c2 d2 =
          .ok ["https://x.test/?page=1", "https://x.test/?page=2",
               "https://x.test/?page=3"]) := by
  refine ⟨?_, ?_, ?_, ?_⟩
  · intro ep hep
    unfold generate_paginated_urls
    rw [hpat, hep]
    exact pattern_loop_no_stop env fenv base pat p config data hstop _ _ []
  · intro hep hmax
    unfold generate_paginated_urls
    rw [hpat, hep]
    simp only [hmax, if_pos]
    rw [pattern_loop_no_stop env fenv base pat p config data hstop _ _ []]
    have harith : p.start_page + p.max_pages - 1 + 1 - p.start_page = p.max_pages := by
      omega
    rw [harith]
    rfl
  · intro hep hmax
    unfold generate_paginated_urls
    simp only [hpat, hep, hmax]
    rw [if_neg (by omega : ¬ ((0 : Nat) > 0))]
    rw [pattern_loop_no_stop env fenv base pat p config data hstop _ _ []]
    have harith : p.start_page + 9 + 1 - p.start_page = 10 := by omega
    rw [harith]
    rfl
  · intro e2 f2 c2 d2
    show pattern_loop e2 f2 "https://x.test/" "?page={page}"
        ⟨none, some "?page={page}", 1, 0, some 3, false⟩ c2 d2 [1, 2, 3] 1 [] = _
    rw [pattern_loop_no_stop e2 f2 _ _ _ c2 d2 rfl [1, 2, 3] 1 []]
    rfl

/-- C5 witness: the first case applied at the concrete scenario config. -/
theorem pattern_pagination_urls_witness :
    generate_paginated_urls trivEnv trivFetchEnv "https://x.test/"
        ⟨none, some "?page={page}", 1, 0, some 3, false⟩ cfg0 [] =
      .ok ((List.range' 1 3).map (pattern_page_url "https://x.test/" "?page={page}")) := by
  have h := (pattern_pagination_urls trivEnv trivFetchEnv "https://x.test/"
    ⟨none, some "?page={page}", 1, 0, some 3, false⟩ cfg0 [] "?page={page}"
    rfl rfl).1 3 rfl
  simpa using h

/-- C9: when the configuration lists two or more URLs, a present pagination
spec is ignored: the URL list is exactly the configured one and the run
processes exactly those URLs in order. -/
theorem pagination_ignored_for_multiple_urls (env : Env) (fenv : FetchEnv)
    (root : ScrapeRoot) (p : PaginationConfig)
    (hp : root.config.pagination = some p)
    (hlen : 2 ≤ root.config.get_urls.length) :
    resolve_urls env fenv root = .ok root.config.get_urls ∧
    run_scrape env fenv root = scrape_results env fenv root root.config.get_urls := by
  have h1 : resolve_urls env fenv root = .ok root.config.get_urls := by
    unfold resolve_urls
    rw [hp]
    have hne : ¬ root.config.get_urls.length = 1 := by omega
    simp [hne]
  refine ⟨h1, ?_⟩
  unfold run_scrape
  rw [h1]

/-- C9 witness: a concrete two-URL config with pagination present resolves
to exactly the two listed URLs. -/
theorem pagination_ignored_for_multiple_urls_witness :
    resolve_urls trivEnv trivFetchEnv rootTwo =
      .ok ["https://a.test/", "https://b.test/"] := by
  have h := (pagination_ignored_for_multiple_urls trivEnv trivFetchEnv rootTwo
    pagEmpty rfl (by decide)).1
  simpa using h

/-- C10: a single-URL config whose pagination object has neither
`pagePattern` nor `nextSelector` generates no URLs at all: the base URL is
dropped and the run returns an empty result list. -/
theorem pagination_without_strategy_yields_no_urls (env : Env) (fenv : FetchEnv)
    (root : ScrapeRoot) (p : PaginationConfig) (u : String)
    (hp : root.config.pagination = some p)
    (hpat : p.page_pattern = none) (hnext : p.next_selector = none)
    (hurls : root.config.get_urls = [u]) :
    generate_paginated_urls env fenv u p root.config root.data = .ok [] ∧
    resolve_urls env fenv root = .ok [] ∧
    run_scrape env fenv root = .ok [] := by
  have hgen : ∀ (cfg : ScrapeRootConfig) (dta : DataConfig),
      generate_paginated_urls env fenv u p cfg dta = .ok [] := by
    intro cfg dta
    unfold generate_paginated_urls
    rw [hpat, hnext]
  have hres : resolve_urls env fenv root = .ok [] := by
    unfold resolve_urls
    rw [hp]
    have hgen1 := hgen root.config root.data
    simp [hurls, hgen1]
  refine ⟨hgen root.config root.data, hres, ?_⟩
  unfold run_scrape
  rw [hres]
  rfl

/-- C10 witness: the concrete one-URL, strategy-less-pagination run returns
an empty result list. -/
theorem pagination_without_strategy_yields_no_urls_witness :
    run_scrape trivEnv trivFetchEnv rootOne = .ok [] :=
  (pagination_without_strategy_yields_no_urls trivEnv trivFetchEnv rootOne
    pagEmpty "https://a.test/" rfl rfl rfl rfl).2.2

theorem fetch_attempt_loop_attempts_le (env : FetchEnv) (url : String)
    (cfg : ScrapeRootConfig) (max : Nat) :
    ∀ (fuel a s : Nat), max - a ≤ fuel → a < max →
      (fetch_attempt_loop env url cfg max a s).attempts ≤ max := by
  intro fuel
  induction fuel with
  | zero => intro a s h1 h2; omega
  | succ f ih =>
    intro a s h1 h2
    rw [fetch_attempt_loop]
    cases hsend : env.send url (a + 1) with
    | success st text =>
      cases text with
      | error e => simpa using h2
      | ok html =>
        cases hcd : cfg.cache_dir with
        | none => simpa using h2
        | some d =>
          cases hc : env.create_dir_all d with
          | error e => simp [hc]; omega
          | ok u =>
            cases hw : env.write_file (get_cache_path env url d) html with
            | error e => simp [hc, hw]; omega
            | ok u2 => simp [hc, hw]; omega
    | failure e =>
      by_cases hge : a + 1 ≥ max
      · simpa [hge] using h2
      · simp only [hge, if_false]
        exact ih (a + 1) (s + 1) (by omega) (by omega)

theorem fetch_attempt_loop_skip_failures (env : FetchEnv) (url : String)
    (cfg : ScrapeRootConfig) (max : Nat) :
    ∀ (m a s : Nat),
      (∀ i, a < i → i ≤ a + m → ∃ e, env.send url i = .failure e) →
      a + m < max →
      fetch_attempt_loop env url cfg max a s =
        fetch_attempt_loop env url cfg max (a + m) (s + m) := by
  intro m
  induction m with
  | zero => intro a s h1 h2; rfl
  | succ mm ih =>
    intro a s hfail hlt
    obtain ⟨e, he⟩ := hfail (a + 1) (by omega) (by omega)
    rw [fetch_attempt_loop]
    have hne : ¬ (a + 1 ≥ max) := by omega
    simp only [he, hne, if_false]
    have h3 : a + (mm + 1) = a + 1 + mm := by omega
    have h4 : s + (mm + 1) = s + 1 + mm := by omega
    rw [h3, h4]
    exact ih (a + 1) (s + 1)
      (fun i hi1 hi2 => hfail i (by omega) (by omega)) (by omega)

theorem fetch_attempt_loop_success (env : FetchEnv) (url : String)
    (cfg : ScrapeRootConfig) (max a s : Nat) (st : Nat)
    (tx : Except String String)
    (hsend : env.send url (a + 1) = .success st tx)
    (hcd : cfg.cache_dir = none) :
    fetch_attempt_loop env url cfg max a s = ⟨tx, a + 1, s, []⟩ := by
  rw [fetch_attempt_loop]
  cases tx with
  | error e => simp [hsend]
  | ok html => simp [hsend, hcd]

theorem fetch_attempt_loop_exhaust (env : FetchEnv) (url : String)
    (cfg : ScrapeRootConfig) (max : Nat) (a s : Nat) (e : String)
    (hlast : env.send url max = .failure e)
    (hfail : ∀ i, a < i → i < max → ∃ e2, env.send url i = .failure e2)
    (hlt : a < max) :
    fetch_attempt_loop env url cfg max a s =
      ⟨.error e, max, s + (max - a - 1), []⟩ := by
  have hskip := fetch_attempt_loop_skip_failures env url cfg max (max - a - 1) a s
    (fun i hi1 hi2 => hfail i hi1 (by omega)) (by omega)
  rw [hskip]
  rw [fetch_attempt_loop]
  have hstep : a + (max - a - 1) + 1 = max := by omega
  rw [hstep, hlast]
  have hge : max ≥ max := Nat.le_refl max
  simp [hge]

/-- C1 counterexample: with `use_cache = false` but a cache directory
configured, a successful fetch DOES write a cache file — the claim's
"when caching is not enabled no cache file is written" is false on the
code, which gates the write only on `cache_dir` (main.rs line 381). -/
theorem cache_write_despite_disabled_cache :
    cfgCacheOff.use_cache = false ∧
    (fetch_with_config okFetchEnv "https://x.test/" cfgCacheOff).result = .ok "page" ∧
    (fetch_with_config okFetchEnv "https://x.test/" cfgCacheOff).writes =
      [("cache/HASH.html", "page")] := by
  have hfetch : fetch_with_config okFetchEnv "https://x.test/" cfgCacheOff =
      ⟨.ok "page", 1, 0, [("cache/HASH.html", "page")]⟩ := by
    show fetch_attempt_loop okFetchEnv "https://x.test/" cfgCacheOff
        (cfgCacheOff.retries + 1) 0 0 = _
    rw [fetch_attempt_loop]
    rfl
  exact ⟨rfl, by rw [hfetch], by rw [hfetch]⟩

/-- C1 (amended): on a successful network fetch — any fetch not served from
the cache, whether because the use-cache flag is off or because it is on
and the cache misses — the page text is persisted under the cache path
(creating the cache directory if absent) before the text is returned if and
only if a cache directory is configured, regardless of whether the
use-cache flag is enabled; any I/O failure while persisting (directory
creation or file write) is propagated as a fetch error rather than
returning the text; with no cache directory nothing is written. -/
theorem cache_persistence_amended (env : FetchEnv) (url : String)
    (cfg : ScrapeRootConfig) (k st : Nat) (body : String)
    (hmiss : cfg.use_cache = true → ∀ d, cfg.cache_dir = some d →
      env.file_exists (get_cache_path env url d) = false)
    (hproxy : cfg.proxy = none)
    (hclient : env.client_build = .ok ())
    (hfail : ∀ i, 1 ≤ i → i ≤ k → ∃ e, env.send url i = .failure e)
    (hsend : env.send url (k + 1) = .success st (.ok body))
    (hle : k + 1 ≤ cfg.retries + 1) :
    (∀ d, cfg.cache_dir = some d →
      (env.create_dir_all d = .ok () →
        env.write_file (get_cache_path env url d) body = .ok () →
        fetch_with_config env url cfg =
          ⟨.ok body, k + 1, k, [(get_cache_path env url d, body)]⟩) ∧
      (∀ e, env.create_dir_all d = .error e →
        fetch_with_config env url cfg = ⟨.error e, k + 1, k, []⟩) ∧
      (∀ e, env.create_dir_all d = .ok () →
        env.write_file (get_cache_path env url d) body = .error e →
        fetch_with_config env url cfg = ⟨.error e, k + 1, k, []⟩)) ∧
    (cfg.cache_dir = none →
      fetch_with_config env url cfg = ⟨.ok body, k + 1, k, []⟩) := by
  have hnet : fetch_with_config env url cfg = fetch_network env url cfg := by
    cases hu : cfg.use_cache with
    | false =>
      unfold fetch_with_config
      rw [hu]
      simp
    | true =>
      unfold fetch_with_config
      rw [hu]
      cases hd : cfg.cache_dir with
      | none => simp
      | some d =>
        have hex := hmiss hu d hd
        simp [hex]
  have hloop : fetch_with_config env url cfg =
      fetch_attempt_loop env url cfg (cfg.retries + 1) k k := by
    rw [hnet]
    unfold fetch_network
    rw [hproxy]
    simp only [hclient]
    have hskip := fetch_attempt_loop_skip_failures env url cfg (cfg.retries + 1) k 0 0
      (fun i hi1 hi2 => hfail i (by omega) (by omega)) (by omega)
    simpa using hskip
  refine ⟨?_, ?_⟩
  · intro d hd
    refine ⟨?_, ?_, ?_⟩
    · intro hmk hwr
      rw [hloop, fetch_attempt_loop]
      simp [hsend, hd, hmk, hwr]
    · intro e hmk
      rw [hloop, fetch_attempt_loop]
      simp [hsend, hd, hmk]
    · intro e hmk hwr
      rw [hloop, fetch_attempt_loop]
      simp [hsend, hd, hmk, hwr]
  · intro hd
    rw [hloop]
    exact fetch_attempt_loop_success env url cfg (cfg.retries + 1) k k st (.ok body)
      hsend hd

/-- C1 witness: the amended claim applied at a concrete successful
cache-miss fetch with the use-cache flag ENABLED and a cache directory
configured: the text is still persisted. -/
theorem cache_persistence_amended_witness :
    fetch_with_config okFetchEnv "https://x.test/" cfgCacheOn =
      ⟨.ok "page", 1, 0,
        [(get_cache_path okFetchEnv "https://x.test/" "cache", "page")]⟩ :=
  (((cache_persistence_amended okFetchEnv "https://x.test/" cfgCacheOn 0 200 "page"
    (fun _ _ _ => rfl) rfl rfl
    (fun i hi1 hi2 => absurd (Nat.le_trans hi1 hi2) (by decide))
    rfl (by decide)).1 "cache" rfl).1) rfl rfl

theorem fetch_network_attempts_le (env : FetchEnv) (url : String)
    (cfg : ScrapeRootConfig) :
    (fetch_network env url cfg).attempts ≤ cfg.retries + 1 := by
  unfold fetch_network
  cases hp : cfg.proxy with
  | some pu =>
    cases hpa : env.proxy_all pu with
    | error e => simp [hpa]
    | ok u =>
      cases hcb : env.client_build with
      | error e => simp [hpa, hcb]
      | ok u2 =>
        simp only [hpa, hcb]
        exact fetch_attempt_loop_attempts_le env url cfg (cfg.retries + 1)
          (cfg.retries + 1) 0 0 (by omega) (by omega)
  | none =>
    cases hcb : env.client_build with
    | error e => simp [hcb]
    | ok u2 =>
      simp only [hcb]
      exact fetch_attempt_loop_attempts_le env url cfg (cfg.retries + 1)
        (cfg.retries + 1) 0 0 (by omega) (by omega)

/-- C2: `fetch_with_config` makes at most `retries + 1` attempts; after `k`
transport failures (each followed by one 1-second retry sleep), a send
success at attempt `k + 1` — whatever its HTTP status, and whether its body
decodes (`tx = ok body`) or not (`tx = error`, returned immediately without
retrying) — ends the loop at exactly `k + 1` attempts and `k` sleeps; if
all `retries + 1` attempts fail at the transport level, the last transport
error is returned after `retries` sleeps. -/
theorem fetch_retry_policy (env : FetchEnv) (url : String)
    (cfg : ScrapeRootConfig) :
    ((fetch_with_config env url cfg).attempts ≤ cfg.retries + 1) ∧
    (∀ (k st : Nat) (tx : Except String String) (errs : Nat → String),
      cfg.use_cache = false → cfg.proxy = none → env.client_build = .ok () →
      cfg.cache_dir = none →
      (∀ i, 1 ≤ i → i ≤ k → env.send url i = .failure (errs i)) →
      env.send url (k + 1) = .success st tx → k + 1 ≤ cfg.retries + 1 →
      fetch_with_config env url cfg = ⟨tx, k + 1, k, []⟩) ∧
    (∀ errs : Nat → String,
      cfg.use_cache = false → cfg.proxy = none → env.client_build = .ok () →
      (∀ i, 1 ≤ i → i ≤ cfg.retries + 1 → env.send url i = .failure (errs i)) →
      fetch_with_config env url cfg =
        ⟨.error (errs (cfg.retries + 1)), cfg.retries + 1, cfg.retries, []⟩) := by
  refine ⟨?_, ?_, ?_⟩
  · unfold fetch_with_config
    cases hu : cfg.use_cache with
    | false => simpa using fetch_network_attempts_le env url cfg
    | true =>
      cases hcd : cfg.cache_dir with
      | some d =>
        by_cases hex : env.file_exists (get_cache_path env url d) = true
        · simp [hex]
        · simpa [hex] using fetch_network_attempts_le env url cfg
      | none => simpa using fetch_network_attempts_le env url cfg
  · intro k st tx errs hnc hproxy hclient hcd hfail hsend hle
    have hloop : fetch_with_config env url cfg =
        fetch_attempt_loop env url cfg (cfg.retries + 1) 0 0 := by
      unfold fetch_with_config fetch_network
      rw [hnc, hproxy]
      simp only [hclient, Bool.false_eq_true, if_false]
    rw [hloop]
    have hskip := fetch_attempt_loop_skip_failures env url cfg (cfg.retries + 1) k 0 0
      (fun i hi1 hi2 => ⟨errs i, hfail i (by omega) (by omega)⟩) (by omega)
    simp only [Nat.zero_add] at hskip
    rw [hskip]
    exact fetch_attempt_loop_success env url cfg (cfg.retries + 1) k k st tx hsend hcd
  · intro errs hnc hproxy hclient hfail
    have hloop : fetch_with_config env url cfg =
        fetch_attempt_loop env url cfg (cfg.retries + 1) 0 0 := by
      unfold fetch_with_config fetch_network
      rw [hnc, hproxy]
      simp only [hclient, Bool.false_eq_true, if_false]
    rw [hloop]
    have h := fetch_attempt_loop_exhaust env url cfg (cfg.retries + 1) 0 0
      (errs (cfg.retries + 1))
      (hfail (cfg.retries + 1) (by omega) (by omega))
      (fun i hi1 hi2 => ⟨errs i, hfail i (by omega) (by omega)⟩) (by omega)
    rw [h]
    have harith : 0 + (cfg.retries + 1 - 0 - 1) = cfg.retries := by omega
    rw [harith]

theorem alookup_isSome_of_mem {α : Type} :
    ∀ (m : List (String × α)) (n : String) (v : α),
      (n, v) ∈ m → (alookup m n).isSome = true := by
  intro m
  induction m with
  | nil => intro n v h; simp at h
  | cons hd tl ih =>
    intro n v h
    rcases hd with ⟨k', w⟩
    by_cases hk : k' = n
    · simp [alookup, hk]
    · rcases List.mem_cons.mp h with heq | hmem
      · injection heq with h1 h2
        exact absurd h1.symm hk
      · simp only [alookup, hk, if_false]
        exact ih n v hmem

theorem foldl_rdCombine_lookup :
    ∀ (singles : List ReturnedData) (init : ReturnedData) (k : String),
      alookup (singles.foldl rdCombine init) k =
        match alookup init k with
        | some v => some v
        | none => firstLookup singles k := by
  intro singles
  induction singles with
  | nil => intro init k; cases h : alookup init k <;> simp [firstLookup, h]
  | cons s rest ih =>
    intro init k
    show alookup (rest.foldl rdCombine (rdCombine init s)) k = _
    rw [ih, alookup_rdCombine]
    cases h1 : alookup init k with
    | some v => simp [firstLookup]
    | none => cases h2 : alookup s k <;> simp [firstLookup, h2]

theorem rdCombine_mem :
    ∀ (b a : ReturnedData) (kv : String × ReturnedDataItem),
      kv ∈ rdCombine a b → kv ∈ a ∨ kv ∈ b := by
  intro b
  induction b with
  | nil => intro a kv h; exact Or.inl h
  | cons hd tl ih =>
    intro a kv h
    have step : rdCombine a (hd :: tl) = rdCombine (rdInsert a hd.1 hd.2) tl := rfl
    rw [step] at h
    rcases ih _ kv h with h1 | h1
    · unfold rdInsert at h1
      cases ha : alookup a hd.1 with
      | some w => rw [ha] at h1; exact Or.inl h1
      | none =>
        rw [ha] at h1
        rcases List.mem_cons.mp h1 with heq | hmem
        · exact Or.inr (by rw [heq]; simp)
        · exact Or.inl hmem
    · exact Or.inr (List.mem_cons_of_mem hd h1)

theorem foldl_rdCombine_mem :
    ∀ (singles : List ReturnedData) (init : ReturnedData)
      (kv : String × ReturnedDataItem),
      kv ∈ singles.foldl rdCombine init → kv ∈ init ∨ ∃ s, s ∈ singles ∧ kv ∈ s := by
  intro singles
  induction singles with
  | nil => intro init kv h; exact Or.inl h
  | cons s rest ih =>
    intro init kv h
    have h0 : kv ∈ rest.foldl rdCombine (rdCombine init s) := h
    rcases ih _ kv h0 with h1 | ⟨s2, hs2, hkv⟩
    · rcases rdCombine_mem s init kv h1 with h2 | h2
      · exact Or.inl h2
      · exact Or.inr ⟨s, by simp, h2⟩
    · exact Or.inr ⟨s2, List.mem_cons_of_mem s hs2, hkv⟩

theorem populate_list_ok_mem :
    ∀ (htmls : List String) (env : Env) (inner : DataConfig)
      (ts : List ReturnedData),
      populate_list env htmls inner = .ok ts →
      ∀ t2, t2 ∈ ts → ∃ hh, populate_values env hh inner = .ok t2 := by
  intro htmls
  induction htmls with
  | nil =>
    intro env inner ts hok t2 ht
    rw [populate_list] at hok
    simp at hok
    subst hok
    simp at ht
  | cons hd rest ih =>
    intro env inner ts hok t2 ht
    rw [populate_list] at hok
    cases h1 : populate_values env hd inner with
    | error e => rw [h1] at hok; simp at hok
    | ok t0 =>
      rw [h1] at hok
      cases h2 : populate_list env rest inner with
      | error e => rw [h2] at hok; simp at hok
      | ok ts0 =>
        rw [h2] at hok
        simp at hok
        subst hok
        rcases List.mem_cons.mp ht with heq | hmem
        · exact ⟨hd, by rw [← heq] at h1; exact h1⟩
        · exact ih env inner ts0 h2 t2 hmem

theorem mirrorsAll_of_forall :
    ∀ (ts : List ReturnedData) (inner : DataConfig),
      (∀ t2 ∈ ts, mirrorsTree inner t2 = true) → mirrorsAll inner ts = true := by
  intro ts
  induction ts with
  | nil => intro inner h; simp [mirrorsAll]
  | cons t2 rest ih =>
    intro inner h
    simp only [mirrorsAll, Bool.and_eq_true]
    exact ⟨h t2 (by simp), ih inner (fun x hx => h x (by simp [hx]))⟩

theorem coerce_value_not_group (env : Env) (c : ItemConfig) (value : String) :
    ∀ items, coerce_value env c value ≠ .DataItems items := by
  intro items
  unfold coerce_value
  split_ifs with h1 h2
  · cases hp : env.parseNumber (rust_trim value) <;> simp [hp]
  · simp
  · simp

theorem mirrorsField_scalar (c : ItemConfig) (v : ReturnedDataItem)
    (hdata : c.data = none) (hng : ∀ items, v ≠ .DataItems items) :
    mirrorsField c v = true := by
  cases v with
  | StringItem s => simp [mirrorsField, hdata]
  | NumberItem n => simp [mirrorsField, hdata]
  | BoolItem b => simp [mirrorsField, hdata]
  | DataItems items => exact absurd rfl (hng items)

theorem mirrorsField_group (c : ItemConfig) (inner : DataConfig)
    (ts : List ReturnedData) (hdata : c.data = some inner)
    (hall : mirrorsAll inner ts = true) :
    mirrorsField c (.DataItems ts) = true := by
  have heq : mirrorsField c (.DataItems ts) =
      (match h : c.data with
       | some inner2 => mirrorsAll inner2 ts
       | none => false) := by
    rw [mirrorsField]
  rw [heq]
  split
  · rename_i inner2 h'
    rw [hdata] at h'
    injection h' with h''
    subst h''
    exact hall
  · rename_i h'
    rw [hdata] at h'
    simp at h'

theorem fieldNodup_group (c : ItemConfig) (inner : DataConfig)
    (hdata : c.data = some inner) : fieldNodup c = treeNodup inner := by
  rw [fieldNodup]
  split
  · rename_i inner2 h'
    rw [hdata] at h'
    injection h' with h''
    subst h''
    rfl
  · rename_i h'
    rw [hdata] at h'
    simp at h'

theorem fieldsNodup_mem :
    ∀ (config : DataConfig) (n : String) (c : ItemConfig),
      fieldsNodup config = true → (n, c) ∈ config → fieldNodup c = true := by
  intro config
  induction config with
  | nil => intro n c h1 h2; simp at h2
  | cons hd rest ih =>
    intro n c h1 h2
    rcases hd with ⟨n0, c0⟩
    simp only [fieldsNodup, Bool.and_eq_true] at h1
    rcases List.mem_cons.mp h2 with heq | hmem
    · injection heq with e1 e2
      rw [e2]
      exact h1.1
    · exact ih n c h1.2 hmem

theorem sizeOf_data_lt (c : ItemConfig) (inner : DataConfig)
    (h : c.data = some inner) : sizeOf inner < sizeOf c := by
  cases c with
  | mk s a d t n df r rp u l tn tb sh =>
    simp [ItemConfig.data] at h
    subst h
    simp
    omega

theorem sizeOf_mem_lt (config : DataConfig) (n : String) (c : ItemConfig)
    (h : (n, c) ∈ config) : sizeOf c < sizeOf config := by
  have h1 := List.sizeOf_lt_of_mem h
  simp at h1
  omega

theorem forall2_mem_right {α β : Type} {R : α → β → Prop} :
    ∀ {l1 : List α} {l2 : List β}, List.Forall₂ R l1 l2 →
      ∀ b ∈ l2, ∃ a, a ∈ l1 ∧ R a b := by
  intro l1 l2 hf
  induction hf with
  | nil => intro b hb; simp at hb
  | cons hr hrest ih =>
    rename_i a0 b0 l1t l2t
    intro b hb
    rcases List.mem_cons.mp hb with heq | hb2
    · exact ⟨a0, by simp, by rw [heq]; exact hr⟩
    · obtain ⟨a2, ha2, hra⟩ := ih b hb2
      exact ⟨a2, List.mem_cons_of_mem a0 ha2, hra⟩

theorem populate_fields_forall2 :
    ∀ (config : DataConfig) (env : Env) (html : String)
      (singles : List ReturnedData),
      (∀ n c rd, (n, c) ∈ config → populate_field env html n c = .ok rd →
        ∃ v, rd = [(n, v)] ∧ mirrorsField c v = true) →
      populate_fields env html config = .ok singles →
      List.Forall₂ (fun (nc : String × ItemConfig) (s : ReturnedData) =>
        ∃ v, s = [(nc.1, v)] ∧ mirrorsField nc.2 v = true) config singles := by
  intro config
  induction config with
  | nil =>
    intro env html singles hPf hok
    rw [populate_fields] at hok
    simp at hok
    subst hok
    exact List.Forall₂.nil
  | cons hd rest ih =>
    intro env html singles hPf hok
    rcases hd with ⟨n0, c0⟩
    rw [populate_fields] at hok
    cases h1 : populate_field env html n0 c0 with
    | error e => rw [h1] at hok; simp at hok
    | ok s0 =>
      rw [h1] at hok
      cases h2 : populate_fields env html rest with
      | error e => rw [h2] at hok; simp at hok
      | ok ss =>
        rw [h2] at hok
        simp at hok
        subst hok
        exact List.Forall₂.cons
          (hPf n0 c0 s0 (by simp) h1)
          (ih env html ss (fun n c rd hm => hPf n c rd (by simp [hm])) h2)

theorem firstLookup_forall2 :
    ∀ (config : DataConfig) (singles : List ReturnedData),
      List.Forall₂ (fun (nc : String × ItemConfig) (s : ReturnedData) =>
        ∃ v, s = [(nc.1, v)] ∧ mirrorsField nc.2 v = true) config singles →
      keysNodup config = true →
      ∀ n c, (n, c) ∈ config →
        ∃ v, firstLookup singles n = some v ∧ mirrorsField c v = true := by
  intro config singles hf
  induction hf with
  | nil => intro _ n c h; simp at h
  | cons hr hrest ih =>
    rename_i nc s l1 l2
    intro hnd n c hm
    rcases nc with ⟨n0, c0⟩
    simp only [keysNodup, Bool.and_eq_true] at hnd
    obtain ⟨hforall, hnd2⟩ := hnd
    rcases hr with ⟨v0, hs, hm0⟩
    rcases List.mem_cons.mp hm with heq | hmem
    · injection heq with e1 e2
      subst e1
      subst e2
      refine ⟨v0, ?_, hm0⟩
      rw [hs]
      simp [firstLookup, alookup]
    · have hne : ¬ (n0 = n) := by
        have h3 := List.all_eq_true.mp hforall (n, c) hmem
        simp at h3
        exact fun hh => h3 hh.symm
      obtain ⟨v, hv, hmv⟩ := ih hnd2 n c hmem
      refine ⟨v, ?_, hmv⟩
      rw [hs]
      simp only [firstLookup, alookup, hne, if_false]
      exact hv

theorem mirrorsFields_of_lookup :
    ∀ (config : DataConfig) (t : ReturnedData),
      (∀ n c, (n, c) ∈ config →
        ∃ v, alookup t n = some v ∧ mirrorsField c v = true) →
      mirrorsFields config t = true := by
  intro config
  induction config with
  | nil => intro t h; simp [mirrorsFields]
  | cons hd rest ih =>
    intro t h
    rcases hd with ⟨n0, c0⟩
    obtain ⟨v0, hv0, hm0⟩ := h n0 c0 (by simp)
    simp only [mirrorsFields, Bool.and_eq_true]
    refine ⟨?_, ih t (fun n c hm => h n c (by simp [hm]))⟩
    rw [hv0]
    exact hm0

theorem shape_aux :
    ∀ N : Nat,
      (∀ c : ItemConfig, sizeOf c ≤ N →
        ∀ (env : Env) (html name : String) (rd : ReturnedData),
          fieldNodup c = true → populate_field env html name c = .ok rd →
          ∃ v, rd = [(name, v)] ∧ mirrorsField c v = true) ∧
      (∀ config : DataConfig, sizeOf config ≤ N →
        ∀ (env : Env) (html : String) (t : ReturnedData),
          treeNodup config = true → populate_values env html config = .ok t →
          mirrorsTree config t = true) := by
  intro N
  induction N with
  | zero =>
    constructor
    · intro c hc
      exfalso
      cases c
      simp at hc
    · intro config hc
      exfalso
      cases config <;> simp at hc
  | succ M ih =>
    obtain ⟨ihf, ihv⟩ := ih
    constructor
    · intro c hc env html name rd hnd hok
      cases hval : env.selectorValid c.selector with
      | false =>
        rw [populate_field] at hok
        simp only [get_item_selector, hval, Bool.false_eq_true, if_false] at hok
        exact Except.noConfusion hok
      | true =>
        rw [populate_field] at hok
        simp only [get_item_selector, hval, if_true] at hok
        split at hok
        · rename_i inner h'
          cases hlist : populate_list env
              ((env.select html c.selector).map (fun el => el.outerHtml)) inner with
          | error e => rw [hlist] at hok; simp at hok
          | ok ts =>
            rw [hlist] at hok
            simp at hok
            refine ⟨.DataItems ts, hok.symm, ?_⟩
            apply mirrorsField_group c inner ts h'
            apply mirrorsAll_of_forall
            intro t2 ht2
            obtain ⟨hh, hpv⟩ := populate_list_ok_mem _ env inner ts hlist t2 ht2
            have hndi : treeNodup inner = true := by
              have heq := fieldNodup_group c inner h'
              rw [heq] at hnd
              exact hnd
            have hsz : sizeOf inner ≤ M := by
              have h2 := sizeOf_data_lt c inner h'
              omega
            exact ihv inner hsz env hh t2 hndi hpv
        · rename_i h'
          simp at hok
          refine ⟨_, hok.symm, ?_⟩
          exact mirrorsField_scalar c _ h'
            (fun items => coerce_value_not_group env c _ items)
    · intro config hc env html t hnd hok
      rw [populate_values] at hok
      cases hpf : populate_fields env html config with
      | error e => rw [hpf] at hok; simp at hok
      | ok singles =>
        rw [hpf] at hok
        simp at hok
        rw [treeNodup] at hnd
        simp only [Bool.and_eq_true] at hnd
        obtain ⟨hkeys, hfields⟩ := hnd
        have hPf : ∀ n c rd, (n, c) ∈ config →
            populate_field env html n c = .ok rd →
            ∃ v, rd = [(n, v)] ∧ mirrorsField c v = true := by
          intro n c rd hm hok2
          have hsz : sizeOf c ≤ M := by
            have h1 := sizeOf_mem_lt config n c hm
            omega
          exact ihf c hsz env html n rd (fieldsNodup_mem config n c hfields hm) hok2
        have hf2 := populate_fields_forall2 config env html singles hPf hpf
        rw [mirrorsTree]
        simp only [Bool.and_eq_true]
        constructor
        · apply mirrorsFields_of_lookup
          intro n c hm
          obtain ⟨v, hfl, hmv⟩ := firstLookup_forall2 config singles hf2 hkeys n c hm
          refine ⟨v, ?_, hmv⟩
          rw [← hok, foldl_rdCombine_lookup]
          simpa [alookup] using hfl
        · rw [List.all_eq_true]
          intro kv hkv
          rw [← hok] at hkv
          rcases foldl_rdCombine_mem singles [] kv hkv with h0 | ⟨s, hs, hkvs⟩
          · simp at h0
          · obtain ⟨nc, hnc, v, hsv, hmv2⟩ := forall2_mem_right hf2 s hs
            rw [hsv] at hkvs
            simp at hkvs
            rw [hkvs]
            exact alookup_isSome_of_mem config nc.1 nc.2 (by simpa using hnc)

/-- C6: for every schema (with the distinct field names every HashMap-backed
schema has) and document, a successful extraction produces a ResultTree
whose field-name set equals the schema's names, where a group field always
maps to a list value (one child per matched element) and a scalar field
never maps to a list value, recursively at every nesting level. -/
theorem extraction_shape_mirrors_schema (env : Env) (html : String)
    (config : DataConfig) (t : ReturnedData)
    (hnd : treeNodup config = true)
    (hok : populate_values env html config = .ok t) :
    mirrorsTree config t = true :=
  (shape_aux (sizeOf config)).2 config (Nat.le_refl _) env html t hnd hok

/-- C6 witness: the shape invariant applied to a concrete one-field schema
and its concrete extraction result. -/
theorem extraction_shape_mirrors_schema_witness :
    mirrorsTree simpleCfg [("title", .StringItem "")] = true := by
  apply extraction_shape_mirrors_schema trivEnv "x" simpleCfg
  · rw [treeNodup]
    simp [keysNodup, fieldsNodup, fieldNodup, simpleCfg, ItemConfig.data]
  · simp [populate_values.eq_def, populate_fields.eq_def, populate_field.eq_def,
      simpleCfg, get_item_selector, trivEnv, ItemConfig.data, ItemConfig.selector,
      scalar_raw, apply_transformations, regex_step, replace_step, coerce_value,
      rust_trim, rdCombine, rdInsert, alookup, ItemConfig.trim, ItemConfig.nth,
      ItemConfig.attr, ItemConfig.default, ItemConfig.regex, ItemConfig.replace,
      ItemConfig.uppercase, ItemConfig.lowercase, ItemConfig.to_number,
      ItemConfig.to_boolean, ItemConfig.strip_html]

/-- C2 witness: retries = 2 with the first two attempts failing and the
third returning an HTTP 500 whose body decodes: exactly 3 attempts, the
body returned, and 2 sleeps (none after the success). -/
theorem fetch_retry_policy_witness :
    fetch_with_config retryFetchEnv "https://x.test/" cfgRetry =
      ⟨.ok "hi", 3, 2, []⟩ := by
  have h := (fetch_retry_policy retryFetchEnv "https://x.test/" cfgRetry).2.1
    2 500 (.ok "hi") (fun _ => "boom") rfl rfl rfl rfl
    (by
      intro i h1 h2
      show (if i ≤ 2 then SendOutcome.failure "boom"
            else SendOutcome.success 500 (.ok "hi")) = SendOutcome.failure "boom"
      rw [if_pos h2])
    rfl (by decide)
  exact h

end Karkinos
